import Mathlib

/-!
Shallow embedding of the cut-request orchestration pipeline of
`src/index.js` (video-processing-server): timestamp normalization
(`timestampToSeconds`), the per-cut extraction loop of the
`POST /cut-video` handler, response construction, upload cleanup, and the
`GET /health` handler.

JavaScript numbers are modelled as `Option Dec` with `none` standing for
`NaN`, where `Dec` is an executable exact decimal rational `m / 10 ^ e`
kept in lowest decimal terms.  Every value the pipeline computes is a
decimal rational, and the arithmetic it performs on timestamps is exact in
floating point for the magnitudes involved, so this carrier is faithful;
`Dec.toRat` interprets it into `ℚ` and the `toRat_*` lemmas below prove the
operations are genuine rational arithmetic.  Strings the parser inspects
are modelled as `List Char`.  The external transcoding engine, the
unique-filename generator and the filesystem unlink call are abstracted as
explicit function parameters, as the spec's design notes direct.
-/

namespace VideoServer

/-- Exact decimal rational `m / 10 ^ e`.  All operations below keep the
value in lowest decimal terms (`e = 0` or `10 ∤ m`), so structural equality
of operation results coincides with equality of values. -/
structure Dec where
  m : ℤ
  e : ℕ
deriving DecidableEq

/-- Reduce `m / 10 ^ e` to lowest decimal terms. -/
def Dec.norm : ℤ → ℕ → Dec
  | m, 0 => ⟨m, 0⟩
  | m, e + 1 => if m % 10 = 0 then Dec.norm (m / 10) e else ⟨m, e + 1⟩

instance : OfNat Dec n := ⟨⟨n, 0⟩⟩

instance : Add Dec :=
  ⟨fun a b =>
    Dec.norm (a.m * 10 ^ (max a.e b.e - a.e) + b.m * 10 ^ (max a.e b.e - b.e)) (max a.e b.e)⟩

instance : Neg Dec := ⟨fun a => ⟨-a.m, a.e⟩⟩

instance : Sub Dec := ⟨fun a b => a + -b⟩

instance : Mul Dec := ⟨fun a b => Dec.norm (a.m * b.m) (a.e + b.e)⟩

instance : LE Dec := ⟨fun a b => a.m * 10 ^ b.e ≤ b.m * 10 ^ a.e⟩

instance : DecidableRel ((· ≤ ·) : Dec → Dec → Prop) := fun a b =>
  inferInstanceAs (Decidable (a.m * 10 ^ b.e ≤ b.m * 10 ^ a.e))

/-- Multiply by `10 ^ k` for an integer `k` (decimal exponent shift). -/
def Dec.mulPow10 (d : Dec) (k : ℤ) : Dec :=
  if 0 ≤ k then Dec.norm (d.m * 10 ^ k.toNat) d.e else Dec.norm d.m (d.e + (-k).toNat)

/-- Interpretation of a `Dec` as a rational number. -/
def Dec.toRat (d : Dec) : ℚ := (d.m : ℚ) / 10 ^ d.e

/-- JavaScript number value: `none` models `NaN`. -/
abbrev JNum := Option Dec

/-- Addition, propagating NaN (models JS `+` on numbers). -/
def jadd : JNum → JNum → JNum
  | some a, some b => some (a + b)
  | _, _ => none

/-- Multiplication by a literal, propagating NaN (models JS `*`). -/
def jmul : JNum → Dec → JNum
  | some a, k => some (a * k)
  | none, _ => none

/-- Subtraction, propagating NaN (models JS `-`). -/
def jsub : JNum → JNum → JNum
  | some a, some b => some (a - b)
  | _, _ => none

/-- Comparison `a <= b` in JS: any comparison involving NaN is false. -/
def jle : JNum → JNum → Bool
  | some a, some b => decide (a ≤ b)
  | _, _ => false

/-- Short-circuit `v || d` for a JS number `v` and literal default `d`:
falsy values (NaN and 0) are replaced by the default. -/
def jsOr (v : JNum) (d : Dec) : JNum :=
  match v with
  | none => some d
  | some q => if q = 0 then some d else some q

/-- Whitespace characters stripped by JS string-to-number conversion. -/
def jsWhitespace (c : Char) : Bool :=
  c = ' ' || c = '\t' || c = '\n' || c = '\r' || c = '\x0b' || c = '\x0c'

/-- Value of a digit string, most significant first. -/
def digitsToNat (l : List Char) : ℕ :=
  l.foldl (fun n c => 10 * n + (c.toNat - 48)) 0

/-- Parse an unsigned decimal significand `digits [. digits]` as the longest
prefix; returns its value and the remaining characters. -/
def parseUnsignedDec (s : List Char) : Option (Dec × List Char) :=
  let ip := s.takeWhile Char.isDigit
  let r1 := s.dropWhile Char.isDigit
  match r1 with
  | '.' :: r2 =>
    let fp := r2.takeWhile Char.isDigit
    let r3 := r2.dropWhile Char.isDigit
    if ip.isEmpty && fp.isEmpty then none
    else some ((⟨digitsToNat ip, 0⟩ : Dec) + Dec.norm (digitsToNat fp) fp.length, r3)
  | _ => if ip.isEmpty then none else some ((⟨digitsToNat ip, 0⟩ : Dec), r1)

/-- Parse a nonempty digit run for an exponent. -/
def parseExpDigits (s : List Char) : Option (ℕ × List Char) :=
  let d := s.takeWhile Char.isDigit
  if d.isEmpty then none else some (digitsToNat d, s.dropWhile Char.isDigit)

/-- Parse an optionally signed exponent digit run. -/
def parseSignedExp : List Char → Option (ℤ × List Char)
  | '+' :: r => (parseExpDigits r).map fun p => ((p.1 : ℤ), p.2)
  | '-' :: r => (parseExpDigits r).map fun p => (-(p.1 : ℤ), p.2)
  | s => (parseExpDigits s).map fun p => ((p.1 : ℤ), p.2)

/-- Parse an exponent part `e±digits`; `none` when absent or incomplete. -/
def parseExpPart : List Char → Option (ℤ × List Char)
  | 'e' :: r => parseSignedExp r
  | 'E' :: r => parseSignedExp r
  | _ => none

/-- Longest unsigned numeric-literal prefix (significand with optional
exponent); an incomplete exponent is not consumed, as in JS. -/
def parseNumPrefix (s : List Char) : Option (Dec × List Char) :=
  (parseUnsignedDec s).map fun p =>
    match parseExpPart p.2 with
    | some (e, r2) => (p.1.mulPow10 e, r2)
    | none => p

/-- Full-string unsigned numeric literal. -/
def parseFullPos (s : List Char) : Option Dec :=
  match parseNumPrefix s with
  | some (q, []) => some q
  | _ => none

/-- Full-string signed numeric literal. -/
def parseFullNum : List Char → Option Dec
  | '+' :: r => parseFullPos r
  | '-' :: r => (parseFullPos r).map Neg.neg
  | s => parseFullPos s

/-- Strip JS whitespace from both ends. -/
def jsTrim (s : List Char) : List Char :=
  ((s.dropWhile jsWhitespace).reverse.dropWhile jsWhitespace).reverse

/-- Model of the JS `Number(string)` conversion used by `.map(Number)` in
`timestampToSeconds`: trimmed empty string is 0, otherwise the whole string
must be a signed decimal literal, else NaN.  Hexadecimal and `Infinity`
forms, which the pipeline never meets on well-formed timestamps, are mapped
to NaN. -/
def jsNumber (s : List Char) : JNum :=
  let t := jsTrim s
  if t.isEmpty then some 0 else parseFullNum t

/-- Model of JS `parseFloat`: value of the longest signed numeric-literal
prefix after leading whitespace, NaN when no prefix parses. -/
def jsParseFloat (s : List Char) : JNum :=
  match s.dropWhile jsWhitespace with
  | '+' :: r => (parseNumPrefix r).map (·.1)
  | '-' :: r => (parseNumPrefix r).map fun p => -p.1
  | t => (parseNumPrefix t).map (·.1)

/-- Model of JS `String.prototype.split(':')`: always a nonempty list of
(possibly empty) parts. -/
def splitOnColon : List Char → List (List Char)
  | [] => [[]]
  | c :: r =>
    if c = ':' then [] :: splitOnColon r
    else
      match splitOnColon r with
      | [] => [[c]]
      | p :: ps => (c :: p) :: ps

/-- Value of a `start`/`end` field of one cut object, as delivered by
`JSON.parse`: a number, a string, or anything else (including the absent
field, i.e. `undefined`). -/
inductive TimeSpec where
  | num (v : JNum)
  | str (s : List Char)
  | other
deriving DecidableEq

/-- Error values thrown or recorded during batch processing.  Template
strings of the source are abstracted structurally: `invalidRange` carries
the two raw specs interpolated into the message, `engine` the engine's
message, `typeError` the exception `split` raises on a non-string. -/
inductive ErrMsg where
  | invalidRange (startSpec endSpec : TimeSpec)
  | engine (m : String)
  | typeError
deriving DecidableEq

/-- Embedding of `timestampToSeconds` (src/index.js lines 64-78).  A number
is returned unchanged; a string is split on `:` and mapped through
`Number`, with the 3- and 2-part shapes combined positionally and any other
shape falling back to `parseFloat(timestamp) || 0`; any other value throws
a `TypeError` when `.split` is accessed. -/
def timestampToSeconds : TimeSpec → Except ErrMsg JNum
  | .num v => .ok v
  | .str s =>
    match (splitOnColon s).map jsNumber with
    | [a, b, c] => .ok (jadd (jadd (jmul a 3600) (jmul b 60)) c)
    | [a, b] => .ok (jadd (jmul a 60) b)
    | _ => .ok (jsOr (jsParseFloat s) 0)
  | .other => .error .typeError

instance instDecidableEqExcept {ε α : Type} [DecidableEq ε] [DecidableEq α] :
    DecidableEq (Except ε α) := fun a b =>
  match a, b with
  | .ok x, .ok y => if h : x = y then isTrue (by subst h; rfl) else isFalse (by simp [h])
  | .error x, .error y => if h : x = y then isTrue (by subst h; rfl) else isFalse (by simp [h])
  | .ok _, .error _ => isFalse (by simp)
  | .error _, .ok _ => isFalse (by simp)

/-- One requested cut `{ start, end }`.  The source's field `end` is a Lean
keyword, hence `end_`. -/
structure Cut where
  start : TimeSpec
  end_ : TimeSpec
deriving DecidableEq

/-- One entry of the `errors` array: `{ index, error }`. -/
structure ErrEntry where
  index : ℕ
  error : ErrMsg
deriving DecidableEq

/-- The per-cut outcome: an output path pushed onto `results`, or an entry
pushed onto `errors`. -/
inductive Outcome where
  | success (path : String)
  | failure (entry : ErrEntry)
deriving DecidableEq

/-- The success path of an outcome, if any. -/
def outSuccess : Outcome → Option String
  | .success p => some p
  | .failure _ => none

/-- The error entry of an outcome, if any. -/
def outFailure : Outcome → Option ErrEntry
  | .success _ => none
  | .failure e => some e

/-- Record of one invocation of the external transcoding engine, tagged
with the index of the cut that made it. -/
structure EngCall where
  cutIndex : ℕ
  inputPath : String
  outputPath : String
  startSeconds : JNum
  endSeconds : JNum
deriving DecidableEq

/-- Behaviour of the external transcoding engine: given input path, output
path, start and duration, it completes or reports an error message. -/
abbrev Engine := String → String → JNum → JNum → Except String Unit

/-- The `uuidv4()` collision-resistant name generator, abstracted as a
function of how many names were already drawn in the batch. -/
abbrev Uuid := ℕ → String

/-- Directory for produced clips (`CUTS_DIR`); `path.join(__dirname, ..)`
resolution is abstracted into a constant. -/
def CUTS_DIR : String := "cuts"

/-- Embedding of `cutVideoSegment` (src/index.js lines 82-115): computes
`duration = endSeconds - startSeconds`, invokes the engine once with the
fixed profile, resolves the output path on `end` and rejects with the
engine's error on `error`.  Progress and start events are observational
only and are not modelled. -/
def cutVideoSegment (eng : Engine) (inputPath outputPath : String)
    (startSeconds endSeconds : JNum) : Except String String :=
  match eng inputPath outputPath startSeconds (jsub endSeconds startSeconds) with
  | .ok _ => .ok outputPath
  | .error err => .error err

/-- Mutable state of the cut loop: the `results` and `errors` arrays of the
source, plus two observational logs used only by the specification — the
ordered per-cut outcomes and the engine invocations made so far. -/
structure BatchState where
  results : List String
  errors : List ErrEntry
  outcomes : List Outcome
  engCalls : List EngCall
deriving DecidableEq

/-- The empty loop state (`const results = []; const errors = []`). -/
def initialBatchState : BatchState := ⟨[], [], [], []⟩

/-- Embedding of one iteration of the cut loop (src/index.js lines
159-186) for the cut at index `i`: normalize both boundaries (a non-string,
non-number boundary throws), reject the cut with an invalid-range error
when `endSeconds <= startSeconds` without touching the engine, otherwise
draw a fresh output name, invoke the engine once and record the outcome. -/
def stepCut (eng : Engine) (uuid : Uuid) (inputPath : String) (i : ℕ) (cut : Cut)
    (st : BatchState) : Except ErrMsg BatchState :=
  match timestampToSeconds cut.start with
  | .error e => .error e
  | .ok startSeconds =>
    match timestampToSeconds cut.end_ with
    | .error e => .error e
    | .ok endSeconds =>
      if jle endSeconds startSeconds then
        let entry : ErrEntry := ⟨i, .invalidRange cut.start cut.end_⟩
        .ok { st with errors := st.errors ++ [entry],
                      outcomes := st.outcomes ++ [.failure entry] }
      else
        let outputFilename := uuid st.engCalls.length ++ ".mp4"
        let outputPath := CUTS_DIR ++ "/" ++ outputFilename
        let call : EngCall := ⟨i, inputPath, outputPath, startSeconds, endSeconds⟩
        match cutVideoSegment eng inputPath outputPath startSeconds endSeconds with
        | .ok _ =>
          .ok { st with results := st.results ++ ["cuts/" ++ outputFilename],
                        outcomes := st.outcomes ++ [.success ("cuts/" ++ outputFilename)],
                        engCalls := st.engCalls ++ [call] }
        | .error m =>
          let entry : ErrEntry := ⟨i, .engine m⟩
          .ok { st with errors := st.errors ++ [entry],
                        outcomes := st.outcomes ++ [.failure entry],
                        engCalls := st.engCalls ++ [call] }

/-- The cut loop from index `i` on.  A thrown error aborts the loop and
propagates (second component); otherwise the final state is returned. -/
def runCutsAux (eng : Engine) (uuid : Uuid) (inputPath : String) :
    ℕ → List Cut → BatchState → BatchState × Option ErrMsg
  | _, [], st => (st, none)
  | i, cut :: rest, st =>
    match stepCut eng uuid inputPath i cut st with
    | .error e => (st, some e)
    | .ok st' => runCutsAux eng uuid inputPath (i + 1) rest st'

/-- The whole cut loop of the `/cut-video` handler, from the empty state. -/
def runCuts (eng : Engine) (uuid : Uuid) (inputPath : String) (cuts : List Cut) :
    BatchState × Option ErrMsg :=
  runCutsAux eng uuid inputPath 0 cuts initialBatchState

/-- The stored upload (`req.file`): multer's disk path and the client
name. -/
structure UploadedFile where
  path : String
  originalname : String
deriving DecidableEq

/-- Result of `JSON.parse` on the `cuts` form field: a JSON syntax error,
a non-array value, or an array of cut objects. -/
inductive CutsField where
  | malformed
  | nonArray
  | arr (cuts : List Cut)
deriving DecidableEq

/-- The parts of the request the handler inspects: the stored upload (if
any) and the parsed `cuts` body field (`none` models an absent field, which
`req.body.cuts || '[]'` turns into the empty array). -/
structure Req where
  file : Option UploadedFile
  cuts : Option CutsField
deriving DecidableEq

/-- The three `400` rejections of the handler. -/
inductive Err400 where
  | noFile
  | invalidJson
  | noCuts
deriving DecidableEq

/-- Response body of the `/cut-video` handler.  `ok200` is the
`{ success, cuts, errors? }` JSON (the wall-clock `processingTime` string
is not modelled); `clientError` the `400` bodies; `serverError` the
`500 { success: false, error }` body. -/
inductive RespBody where
  | clientError (e : Err400)
  | ok200 (success : Bool) (cuts : List String) (errors : Option (List ErrEntry))
  | serverError (e : ErrMsg)
deriving DecidableEq

/-- The `success` flag carried by a response body (`400` and `500` bodies
always carry `success: false`). -/
def bodySuccess : RespBody → Bool
  | .ok200 s _ _ => s
  | _ => false

/-- The `cuts` output-path array carried by a response body, if any. -/
def bodyCuts : RespBody → Option (List String)
  | .ok200 _ c _ => some c
  | _ => none

/-- Everything observable about one handled request: status and body of
the response, the unlink attempts on stored files in order, whether an
attempted unlink failed (it is only logged), and the observational logs of
the batch that ran. -/
structure HandlerResult where
  status : ℕ
  body : RespBody
  unlinks : List String
  cleanupFailed : Bool
  engCalls : List EngCall
  outcomes : List Outcome
deriving DecidableEq

/-- Embedding of the `POST /cut-video` handler (src/index.js lines
122-219): reject a missing upload, a malformed, non-array or empty `cuts`
field with `400`; otherwise run the cut loop; on normal completion unlink
the upload (failure only logged) and answer `200` with
`success = results.length > 0` and `errors` only when nonempty; when the
loop throws, the catch block unlinks the upload (failure swallowed) and
answers `500`.  `unlinkOk` tells whether unlinking a path succeeds. -/
def cutVideoHandler (eng : Engine) (uuid : Uuid) (unlinkOk : String → Bool)
    (req : Req) : HandlerResult :=
  match req.file with
  | none => ⟨400, .clientError .noFile, [], false, [], []⟩
  | some f =>
    match req.cuts.getD (.arr []) with
    | .malformed => ⟨400, .clientError .invalidJson, [], false, [], []⟩
    | .nonArray => ⟨400, .clientError .noCuts, [], false, [], []⟩
    | .arr cuts =>
      if cuts.length = 0 then ⟨400, .clientError .noCuts, [], false, [], []⟩
      else
        match runCuts eng uuid f.path cuts with
        | (st, none) =>
          ⟨200,
           .ok200 (decide (0 < st.results.length)) st.results
             (if 0 < st.errors.length then some st.errors else none),
           [f.path], !unlinkOk f.path, st.engCalls, st.outcomes⟩
        | (st, some e) =>
          ⟨500, .serverError e, [f.path], !unlinkOk f.path, st.engCalls, st.outcomes⟩

/-- Embedding of the `GET /health` handler (src/index.js lines 117-119):
its JSON body as an association list of fields. -/
def healthBody (ffmpegPath : String) : List (String × String) :=
  [("status", "ok"), ("ffmpeg", ffmpegPath)]

/-- The `GET /health` response: status code and body. -/
def healthHandler (ffmpegPath : String) : ℕ × List (String × String) :=
  (200, healthBody ffmpegPath)

/-- A cut is rejected by the range check: both boundaries normalize to
numbers with `end ≤ start` in the JS comparison. -/
def rangeRejected (c : Cut) : Prop :=
  ∃ x y, timestampToSeconds c.start = .ok x ∧ timestampToSeconds c.end_ = .ok y ∧
    jle y x = true

/-- An engine that completes every invocation (for concrete checks). -/
def engOk : Engine := fun _ _ _ _ => .ok ()

/-- An engine that rejects every invocation (for concrete checks). -/
def engFail : Engine := fun _ _ _ _ => .error "boom"

/-- A deterministic stand-in for the unique-name generator. -/
def uuidSeq : Uuid := fun n => "clip" ++ toString n

/-- The spec's sample batch: one valid cut, one inverted range. -/
def cutsSample : List Cut :=
  [⟨.str "00:00:05".data, .str "00:00:12".data⟩,
   ⟨.str "00:00:20".data, .str "00:00:10".data⟩]

/-- A sample stored upload. -/
def fileSample : UploadedFile := ⟨"uploads/u0.mp4", "orig.mp4"⟩

/-- A well-formed request carrying the sample batch. -/
def reqSample : Req := ⟨some fileSample, some (.arr cutsSample)⟩

/-- A request with no stored upload. -/
def reqNoFile : Req := ⟨none, some (.arr cutsSample)⟩

/-- A request whose `cuts` field is unparsable JSON. -/
def reqBadJson : Req := ⟨some fileSample, some .malformed⟩

/-- A request whose `cuts` field is the empty array. -/
def reqEmptyCuts : Req := ⟨some fileSample, some (.arr [])⟩

/-- A cut whose `end` field is neither a number nor a string. -/
def cutUntyped : Cut := ⟨.num (some 0), .other⟩

/-- A request whose single cut has an untyped boundary. -/
def reqUntyped : Req := ⟨some fileSample, some (.arr [cutUntyped])⟩

/-- An unlink oracle for which every deletion succeeds. -/
def unlinkAlways : String → Bool := fun _ => true

/-- An unlink oracle for which every deletion fails. -/
def unlinkNever : String → Bool := fun _ => false

theorem Dec.toRat_norm (e : ℕ) : ∀ m : ℤ, (Dec.norm m e).toRat = (m : ℚ) / 10 ^ e := by
  induction e with
  | zero => intro m; simp [Dec.norm, Dec.toRat]
  | succ e ih =>
    intro m
    unfold Dec.norm
    by_cases h : m % 10 = 0
    · rw [if_pos h, ih]
      have h10 : (10 : ℤ) ∣ m := Int.dvd_of_emod_eq_zero h
      obtain ⟨k, rfl⟩ := h10
      rw [Int.mul_ediv_cancel_left _ (by norm_num)]
      push_cast
      rw [pow_succ]
      field_simp
      ring
    · rw [if_neg h]
      simp [Dec.toRat]

theorem Dec.toRat_add (a b : Dec) : (a + b).toRat = a.toRat + b.toRat := by
  show (Dec.norm _ _).toRat = _
  rw [Dec.toRat_norm]
  unfold Dec.toRat
  have ha : (10 : ℚ) ^ (max a.e b.e - a.e) * 10 ^ a.e = 10 ^ max a.e b.e := by
    rw [← pow_add]
    congr 1
    omega
  have hb : (10 : ℚ) ^ (max a.e b.e - b.e) * 10 ^ b.e = 10 ^ max a.e b.e := by
    rw [← pow_add]
    congr 1
    omega
  push_cast
  rw [add_div]
  congr 1
  · rw [div_eq_div_iff (by positivity) (by positivity), mul_assoc, ha]
  · rw [div_eq_div_iff (by positivity) (by positivity), mul_assoc, hb]

theorem Dec.toRat_neg (a : Dec) : (-a).toRat = -a.toRat := by
  show Dec.toRat ⟨-a.m, a.e⟩ = _
  unfold Dec.toRat
  push_cast
  ring

theorem Dec.toRat_sub (a b : Dec) : (a - b).toRat = a.toRat - b.toRat := by
  show (a + -b).toRat = _
  rw [Dec.toRat_add, Dec.toRat_neg]
  ring

theorem Dec.toRat_mul (a b : Dec) : (a * b).toRat = a.toRat * b.toRat := by
  show (Dec.norm _ _).toRat = _
  rw [Dec.toRat_norm]
  unfold Dec.toRat
  push_cast
  rw [pow_add]
  field_simp

theorem Dec.toRat_mulPow10 (d : Dec) (k : ℤ) :
    (d.mulPow10 k).toRat = d.toRat * (10 : ℚ) ^ k := by
  unfold Dec.mulPow10
  by_cases h : 0 ≤ k
  · rw [if_pos h, Dec.toRat_norm]
    unfold Dec.toRat
    have hzk : (10 : ℚ) ^ k = 10 ^ k.toNat := by
      rw [← zpow_natCast]
      congr 1
      omega
    rw [hzk]
    push_cast
    ring
  · rw [if_neg h, Dec.toRat_norm]
    unfold Dec.toRat
    have hzk : (10 : ℚ) ^ k = ((10 : ℚ) ^ (-k).toNat)⁻¹ := by
      rw [← zpow_natCast, ← zpow_neg]
      congr 1
      omega
    rw [hzk, pow_add]
    field_simp

theorem Dec.le_iff_toRat (a b : Dec) : a ≤ b ↔ a.toRat ≤ b.toRat := by
  show a.m * 10 ^ b.e ≤ b.m * 10 ^ a.e ↔ _
  unfold Dec.toRat
  rw [div_le_div_iff₀ (by positivity) (by positivity)]
  constructor
  · intro h
    exact_mod_cast h
  · intro h
    exact_mod_cast h

theorem stepCut_ok_shape {eng : Engine} {uuid : Uuid} {ip : String} {i : ℕ} {c : Cut}
    {st st' : BatchState} (h : stepCut eng uuid ip i c st = .ok st') :
    ∃ o dc, st'.outcomes = st.outcomes ++ [o] ∧
      st'.results = st.results ++ (outSuccess o).toList ∧
      st'.errors = st.errors ++ (outFailure o).toList ∧
      st'.engCalls = st.engCalls ++ dc ∧
      (∀ e, o = .failure e → e.index = i) ∧
      (∀ cl ∈ dc, cl.cutIndex = i) := by
  unfold stepCut at h
  cases hs : timestampToSeconds c.start with
  | error e => rw [hs] at h; cases h
  | ok x =>
    rw [hs] at h
    cases he : timestampToSeconds c.end_ with
    | error e => rw [he] at h; cases h
    | ok y =>
      rw [he] at h
      by_cases hle : jle y x = true
      · simp only [hle, if_true] at h
        injection h with h'
        subst h'
        exact ⟨.failure ⟨i, .invalidRange c.start c.end_⟩, [], by simp [outSuccess, outFailure]⟩
      · simp only [hle, if_false] at h
        cases hcv : cutVideoSegment eng ip
            (CUTS_DIR ++ "/" ++ (uuid st.engCalls.length ++ ".mp4")) x y with
        | ok p =>
          rw [hcv] at h
          injection h with h'
          subst h'
          refine ⟨.success ("cuts/" ++ (uuid st.engCalls.length ++ ".mp4")),
            [⟨i, ip, CUTS_DIR ++ "/" ++ (uuid st.engCalls.length ++ ".mp4"), x, y⟩], ?_⟩
          simp [outSuccess, outFailure]
        | error m =>
          rw [hcv] at h
          injection h with h'
          subst h'
          refine ⟨.failure ⟨i, .engine m⟩,
            [⟨i, ip, CUTS_DIR ++ "/" ++ (uuid st.engCalls.length ++ ".mp4"), x, y⟩], ?_⟩
          simp [outSuccess, outFailure]

theorem stepCut_rejected {eng : Engine} {uuid : Uuid} {ip : String} {i : ℕ} {c : Cut}
    {st : BatchState} (hr : rangeRejected c) :
    stepCut eng uuid ip i c st = .ok { st with
      errors := st.errors ++ [⟨i, .invalidRange c.start c.end_⟩],
      outcomes := st.outcomes ++ [.failure ⟨i, .invalidRange c.start c.end_⟩] } := by
  obtain ⟨x, y, hx, hy, hle⟩ := hr
  unfold stepCut
  rw [hx, hy]
  simp [hle]

theorem runCutsAux_spec (eng : Engine) (uuid : Uuid) (ip : String) :
    ∀ (cuts : List Cut) (i : ℕ) (st st' : BatchState),
      runCutsAux eng uuid ip i cuts st = (st', none) →
      ∃ d dc,
        st'.outcomes = st.outcomes ++ d ∧
        d.length = cuts.length ∧
        st'.results = st.results ++ d.filterMap outSuccess ∧
        st'.errors = st.errors ++ d.filterMap outFailure ∧
        st'.engCalls = st.engCalls ++ dc ∧
        (∀ k e, d.get? k = some (.failure e) → e.index = i + k) ∧
        (∀ cl ∈ dc, i ≤ cl.cutIndex ∧ cl.cutIndex < i + cuts.length) ∧
        (∀ k c, cuts.get? k = some c → rangeRejected c →
          d.get? k = some (.failure ⟨i + k, .invalidRange c.start c.end_⟩) ∧
          ∀ cl ∈ dc, cl.cutIndex ≠ i + k) := by
  intro cuts
  induction cuts with
  | nil =>
    intro i st st' h
    unfold runCutsAux at h
    injection h with h1 h2
    subst h1
    exact ⟨[], [], by simp⟩
  | cons c rest ih =>
    intro i st st' h
    unfold runCutsAux at h
    cases hstep : stepCut eng uuid ip i c st with
    | error e => rw [hstep] at h; injection h with h1 h2; cases h2
    | ok st1 =>
      rw [hstep] at h
      obtain ⟨d', dc', ho', hl', hr', he', hc', hfi', hbd', hrej'⟩ := ih (i + 1) st1 st' h
      obtain ⟨o, dc0, ho0, hr0, he0, hc0, hfi0, hidx0⟩ := stepCut_ok_shape hstep
      refine ⟨o :: d', dc0 ++ dc', ?_, ?_, ?_, ?_, ?_, ?_, ?_, ?_⟩
      · rw [ho', ho0]; simp
      · simp [hl']
      · rw [hr', hr0]; cases o <;> simp [outSuccess, List.filterMap_cons]
      · rw [he', he0]; cases o <;> simp [outFailure, List.filterMap_cons]
      · rw [hc', hc0]; simp
      · intro k e hk
        cases k with
        | zero =>
          simp only [List.get?] at hk
          injection hk with hk'
          have := hfi0 e hk'
          omega
        | succ k' =>
          have := hfi' k' e (by simpa using hk)
          omega
      · intro cl hcl
        rcases List.mem_append.mp hcl with hin | hin
        · have := hidx0 cl hin; simp; omega
        · have := hbd' cl hin; simp; omega
      · intro k c0 hk hrj
        cases k with
        | zero =>
          simp only [List.get?] at hk
          injection hk with hk'
          subst hk'
          have hexp := @stepCut_rejected eng uuid ip i c st hrj
          rw [hstep] at hexp
          injection hexp with hexp'
          rw [hexp'] at hc0 ho0
          simp only [] at hc0 ho0
          have hdc0 : dc0 = [] := by
            simpa using hc0.symm
          have ho : o = .failure ⟨i, .invalidRange c.start c.end_⟩ := by
            have h2 := List.append_cancel_left ho0
            simp at h2
            simp [h2]
          constructor
          · simp [ho]
          · intro cl hcl
            rcases List.mem_append.mp hcl with hin | hin
            · rw [hdc0] at hin; cases hin
            · have := hbd' cl hin; omega
        | succ k' =>
          have hk2 : rest.get? k' = some c0 := by simpa using hk
          obtain ⟨hdk, hcall⟩ := hrej' k' c0 hk2 hrj
          constructor
          · have : i + 1 + k' = i + (k' + 1) := by omega
            rw [this] at hdk
            simpa using hdk
          · intro cl hcl
            rcases List.mem_append.mp hcl with hin | hin
            · have := hidx0 cl hin; omega
            · have := hcall cl hin; omega

theorem length_filterMap_partition (d : List Outcome) :
    (d.filterMap outSuccess).length + (d.filterMap outFailure).length = d.length := by
  induction d with
  | nil => simp
  | cons o rest ih =>
    cases o <;> simp [outSuccess, outFailure, List.filterMap_cons] <;> omega

theorem filterMap_outSuccess_pos_iff (d : List Outcome) :
    0 < (d.filterMap outSuccess).length ↔ ∃ p, Outcome.success p ∈ d := by
  induction d with
  | nil => simp
  | cons o rest ih =>
    cases o with
    | success p => simp [outSuccess, List.filterMap_cons]
    | failure e => simpa [outSuccess, List.filterMap_cons] using ih

theorem tts_str_ok (s : List Char) : ∃ v, timestampToSeconds (.str s) = .ok v := by
  simp only [timestampToSeconds]
  rcases hm : (splitOnColon s).map jsNumber with _ | ⟨a, _ | ⟨b, _ | ⟨cc, _ | rest⟩⟩⟩ <;>
    exact ⟨_, rfl⟩

theorem tts_error {t : TimeSpec} {e : ErrMsg} (h : timestampToSeconds t = .error e) :
    t = .other ∧ e = .typeError := by
  cases t with
  | num v => simp [timestampToSeconds] at h
  | str s =>
    obtain ⟨v, hv⟩ := tts_str_ok s
    rw [hv] at h
    cases h
  | other =>
    simp only [timestampToSeconds] at h
    injection h with h'
    exact ⟨rfl, h'.symm⟩

theorem stepCut_error_shape {eng : Engine} {uuid : Uuid} {ip : String} {i : ℕ} {c : Cut}
    {st : BatchState} {e : ErrMsg} (h : stepCut eng uuid ip i c st = .error e) :
    e = .typeError ∧ (c.start = .other ∨ c.end_ = .other) := by
  unfold stepCut at h
  cases hs : timestampToSeconds c.start with
  | error e' =>
    rw [hs] at h
    injection h with h'
    obtain ⟨ho, he⟩ := tts_error hs
    exact ⟨h' ▸ he, Or.inl ho⟩
  | ok x =>
    rw [hs] at h
    cases he : timestampToSeconds c.end_ with
    | error e' =>
      rw [he] at h
      injection h with h'
      obtain ⟨ho, he2⟩ := tts_error he
      exact ⟨h' ▸ he2, Or.inr ho⟩
    | ok y =>
      rw [he] at h
      by_cases hle : jle y x = true
      · simp only [hle, if_true] at h
        cases h
      · simp only [hle, if_false] at h
        cases hcv : cutVideoSegment eng ip
            (CUTS_DIR ++ "/" ++ (uuid st.engCalls.length ++ ".mp4")) x y with
        | ok p => rw [hcv] at h; cases h
        | error m => rw [hcv] at h; cases h

theorem stepCut_other {eng : Engine} {uuid : Uuid} {ip : String} {i : ℕ} {c : Cut}
    {st : BatchState} (h : c.start = .other ∨ c.end_ = .other) :
    stepCut eng uuid ip i c st = .error .typeError := by
  rcases h with h | h
  · unfold stepCut
    rw [h]
    rfl
  · cases hs : timestampToSeconds c.start with
    | error e =>
      obtain ⟨ho, he⟩ := tts_error hs
      unfold stepCut
      rw [hs, he]
    | ok x =>
      unfold stepCut
      rw [hs, h]
      rfl

theorem runCutsAux_throws (eng : Engine) (uuid : Uuid) (ip : String) :
    ∀ (cuts : List Cut) (i : ℕ) (st : BatchState),
      (∃ c ∈ cuts, c.start = .other ∨ c.end_ = .other) →
      (runCutsAux eng uuid ip i cuts st).2 = some .typeError := by
  intro cuts
  induction cuts with
  | nil =>
    intro i st h
    rcases h with ⟨c, hc, _⟩
    cases hc
  | cons c0 rest ih =>
    intro i st h
    by_cases hbad : c0.start = .other ∨ c0.end_ = .other
    · unfold runCutsAux
      rw [stepCut_other hbad]
    · cases hstep : stepCut eng uuid ip i c0 st with
      | error e =>
        obtain ⟨he, hshape⟩ := stepCut_error_shape hstep
        exact absurd hshape hbad
      | ok st1 =>
        unfold runCutsAux
        rw [hstep]
        apply ih
        rcases h with ⟨c, hc, hcbad⟩
        rcases List.mem_cons.mp hc with rfl | hmem
        · exact absurd hcbad hbad
        · exact ⟨c, hmem, hcbad⟩

theorem splitOnColon_no_colon {s : List Char} (h : ':' ∉ s) : splitOnColon s = [s] := by
  induction s with
  | nil => rfl
  | cons c t ih =>
    have hc : ¬ (c = ':') := fun e => h (by simp [e])
    have ht : ':' ∉ t := fun m => h (List.mem_cons_of_mem _ m)
    simp only [splitOnColon, if_neg hc, ih ht]

theorem splitOnColon_append {a : List Char} (r : List Char) (h : ':' ∉ a) :
    splitOnColon (a ++ ':' :: r) = a :: splitOnColon r := by
  induction a with
  | nil => simp [splitOnColon]
  | cons c t ih =>
    have hc : ¬ (c = ':') := fun e => h (by simp [e])
    have ht : ':' ∉ t := fun m => h (List.mem_cons_of_mem _ m)
    simp only [List.cons_append, splitOnColon, if_neg hc, List.append_eq, ih ht]

/-- Claim C1: each cut in a batch yields exactly one outcome at its own
ordinal position — a success path or a failure record carrying its index —
so successes plus errors count the input cuts, and no failure aborts the
loop early. -/
theorem batch_one_outcome_per_cut (eng : Engine) (uuid : Uuid) (ip : String)
    (cuts : List Cut) (st : BatchState)
    (h : runCuts eng uuid ip cuts = (st, none)) :
    st.outcomes.length = cuts.length ∧
    st.results.length + st.errors.length = cuts.length ∧
    (∀ k e, st.outcomes.get? k = some (.failure e) → e.index = k) := by
  obtain ⟨d, dc, ho, hl, hr, he, hc, hfi, hbd, hrej⟩ :=
    runCutsAux_spec eng uuid ip cuts 0 initialBatchState st h
  have hod : st.outcomes = d := by simpa [initialBatchState] using ho
  have hres : st.results = d.filterMap outSuccess := by simpa [initialBatchState] using hr
  have herr : st.errors = d.filterMap outFailure := by simpa [initialBatchState] using he
  refine ⟨by rw [hod, hl], ?_, ?_⟩
  · rw [hres, herr, ← hl, length_filterMap_partition]
  · intro k e hk
    rw [hod] at hk
    simpa using hfi k e hk

theorem batch_one_outcome_per_cut_witness :
    (runCuts engOk uuidSeq "in.mp4" cutsSample).1.outcomes.length = cutsSample.length ∧
    (runCuts engOk uuidSeq "in.mp4" cutsSample).1.results.length +
      (runCuts engOk uuidSeq "in.mp4" cutsSample).1.errors.length = cutsSample.length ∧
    (∀ k e, (runCuts engOk uuidSeq "in.mp4" cutsSample).1.outcomes.get? k =
      some (.failure e) → e.index = k) :=
  batch_one_outcome_per_cut engOk uuidSeq "in.mp4" cutsSample
    (runCuts engOk uuidSeq "in.mp4" cutsSample).1 (by decide)

/-- Claim C3: a cut whose normalized end is numerically at most its
normalized start is recorded as an invalid-range failure at its index, no
engine invocation is made for it, and the loop still processes every cut. -/
theorem range_invalid_cut_no_engine (eng : Engine) (uuid : Uuid) (ip : String)
    (cuts : List Cut) (st : BatchState) (k : ℕ) (c : Cut) (x y : JNum)
    (hrun : runCuts eng uuid ip cuts = (st, none))
    (hk : cuts.get? k = some c)
    (hx : timestampToSeconds c.start = .ok x)
    (hy : timestampToSeconds c.end_ = .ok y)
    (hle : jle y x = true) :
    st.outcomes.get? k = some (.failure ⟨k, .invalidRange c.start c.end_⟩) ∧
    (∀ cl ∈ st.engCalls, cl.cutIndex ≠ k) ∧
    st.outcomes.length = cuts.length := by
  obtain ⟨d, dc, ho, hl, hr, he, hc, hfi, hbd, hrej⟩ :=
    runCutsAux_spec eng uuid ip cuts 0 initialBatchState st hrun
  have hod : st.outcomes = d := by simpa [initialBatchState] using ho
  have hcd : st.engCalls = dc := by simpa [initialBatchState] using hc
  obtain ⟨h1, h2⟩ := hrej k c hk ⟨x, y, hx, hy, hle⟩
  refine ⟨?_, ?_, by rw [hod, hl]⟩
  · rw [hod]
    simpa using h1
  · intro cl hcl
    rw [hcd] at hcl
    simpa using h2 cl hcl

theorem range_invalid_cut_no_engine_witness :
    (runCuts engOk uuidSeq "in.mp4" cutsSample).1.outcomes.get? 1 =
      some (.failure ⟨1, .invalidRange (.str "00:00:20".data) (.str "00:00:10".data)⟩) ∧
    (∀ cl ∈ (runCuts engOk uuidSeq "in.mp4" cutsSample).1.engCalls, cl.cutIndex ≠ 1) ∧
    (runCuts engOk uuidSeq "in.mp4" cutsSample).1.outcomes.length = cutsSample.length :=
  range_invalid_cut_no_engine engOk uuidSeq "in.mp4" cutsSample
    (runCuts engOk uuidSeq "in.mp4" cutsSample).1 1
    ⟨.str "00:00:20".data, .str "00:00:10".data⟩ (some 20) (some 10)
    (by decide) (by decide) (by decide) (by decide) (by decide)

/-- Claim C5: normalization returns numbers unchanged, interprets
two-component colon strings as `M*60+S`, three-component ones as
`H*3600+M*60+S`, and parses any other shape as a bare float with the 0
default. -/
theorem timestamp_normalization_shapes :
    (∀ v : JNum, timestampToSeconds (.num v) = .ok v) ∧
    (∀ a b : List Char, ':' ∉ a → ':' ∉ b → ∀ m s : Dec,
      jsNumber a = some m → jsNumber b = some s →
      timestampToSeconds (.str (a ++ ':' :: b)) = .ok (some (m * 60 + s))) ∧
    (∀ a b c : List Char, ':' ∉ a → ':' ∉ b → ':' ∉ c → ∀ hh mm ss : Dec,
      jsNumber a = some hh → jsNumber b = some mm → jsNumber c = some ss →
      timestampToSeconds (.str (a ++ ':' :: (b ++ ':' :: c))) =
        .ok (some (hh * 3600 + mm * 60 + ss))) ∧
    (∀ t : List Char, (splitOnColon t).length ≠ 2 → (splitOnColon t).length ≠ 3 →
      timestampToSeconds (.str t) = .ok (jsOr (jsParseFloat t) 0)) := by
  refine ⟨fun v => rfl, ?_, ?_, ?_⟩
  · intro a b ha hb m s hm hs
    have hsp : splitOnColon (a ++ ':' :: b) = [a, b] := by
      rw [splitOnColon_append b ha, splitOnColon_no_colon hb]
    simp only [timestampToSeconds, hsp, List.map, hm, hs, jmul, jadd]
  · intro a b c ha hb hc hh mm ss hha hhb hhc
    have hsp : splitOnColon (a ++ ':' :: (b ++ ':' :: c)) = [a, b, c] := by
      rw [splitOnColon_append _ ha, splitOnColon_append _ hb, splitOnColon_no_colon hc]
    simp only [timestampToSeconds, hsp, List.map, hha, hhb, hhc, jmul, jadd]
  · intro t h2 h3
    simp only [timestampToSeconds]
    rcases hm : (splitOnColon t).map jsNumber with _ | ⟨a, _ | ⟨b, _ | ⟨c, _ | rest⟩⟩⟩
    · rfl
    · rfl
    · exact absurd (by simpa using congrArg List.length hm) h2
    · exact absurd (by simpa using congrArg List.length hm) h3
    · rfl

theorem timestamp_normalization_shapes_witness :
    timestampToSeconds (.num (some 7)) = .ok (some 7) ∧
    timestampToSeconds (.str ("1".data ++ ':' :: "30".data)) = .ok (some (1 * 60 + 30)) ∧
    timestampToSeconds (.str ("1".data ++ ':' :: ("2".data ++ ':' :: "3".data))) =
      .ok (some (1 * 3600 + 2 * 60 + 3)) ∧
    timestampToSeconds (.str "12abc".data) = .ok (jsOr (jsParseFloat "12abc".data) 0) :=
  ⟨timestamp_normalization_shapes.1 (some 7),
   timestamp_normalization_shapes.2.1 "1".data "30".data (by decide) (by decide) 1 30
     (by decide) (by decide),
   timestamp_normalization_shapes.2.2.1 "1".data "2".data "3".data (by decide) (by decide)
     (by decide) 1 2 3 (by decide) (by decide) (by decide),
   timestamp_normalization_shapes.2.2.2 "12abc".data (by decide) (by decide)⟩

theorem cutVideoHandler_noFile {eng : Engine} {uuid : Uuid} {u : String → Bool} {req : Req}
    (hf : req.file = none) :
    cutVideoHandler eng uuid u req = ⟨400, .clientError .noFile, [], false, [], []⟩ := by
  unfold cutVideoHandler
  rw [hf]

theorem cutVideoHandler_malformed {eng : Engine} {uuid : Uuid} {u : String → Bool} {req : Req}
    {f : UploadedFile} (hf : req.file = some f)
    (hc : req.cuts.getD (.arr []) = .malformed) :
    cutVideoHandler eng uuid u req = ⟨400, .clientError .invalidJson, [], false, [], []⟩ := by
  unfold cutVideoHandler
  rw [hf]
  dsimp only
  rw [hc]

theorem cutVideoHandler_nonArray {eng : Engine} {uuid : Uuid} {u : String → Bool} {req : Req}
    {f : UploadedFile} (hf : req.file = some f)
    (hc : req.cuts.getD (.arr []) = .nonArray) :
    cutVideoHandler eng uuid u req = ⟨400, .clientError .noCuts, [], false, [], []⟩ := by
  unfold cutVideoHandler
  rw [hf]
  dsimp only
  rw [hc]

theorem cutVideoHandler_emptyArr {eng : Engine} {uuid : Uuid} {u : String → Bool} {req : Req}
    {f : UploadedFile} (hf : req.file = some f)
    (hc : req.cuts.getD (.arr []) = .arr []) :
    cutVideoHandler eng uuid u req = ⟨400, .clientError .noCuts, [], false, [], []⟩ := by
  unfold cutVideoHandler
  rw [hf]
  dsimp only
  rw [hc]
  rfl

theorem cutVideoHandler_run {eng : Engine} {uuid : Uuid} {u : String → Bool} {req : Req}
    {f : UploadedFile} {cuts : List Cut} (hf : req.file = some f)
    (hc : req.cuts.getD (.arr []) = .arr cuts) (hlen : cuts.length ≠ 0) :
    cutVideoHandler eng uuid u req =
      match runCuts eng uuid f.path cuts with
      | (st, none) =>
        ⟨200,
         .ok200 (decide (0 < st.results.length)) st.results
           (if 0 < st.errors.length then some st.errors else none),
         [f.path], !u f.path, st.engCalls, st.outcomes⟩
      | (st, some e) =>
        ⟨500, .serverError e, [f.path], !u f.path, st.engCalls, st.outcomes⟩ := by
  unfold cutVideoHandler
  rw [hf]
  dsimp only
  rw [hc]
  dsimp only
  rw [if_neg hlen]

theorem tts_fallback (t : List Char) (h2 : (splitOnColon t).length ≠ 2)
    (h3 : (splitOnColon t).length ≠ 3) :
    timestampToSeconds (.str t) = .ok (jsOr (jsParseFloat t) 0) := by
  simp only [timestampToSeconds]
  rcases hm : (splitOnColon t).map jsNumber with _ | ⟨a, _ | ⟨b, _ | ⟨c, _ | rest⟩⟩⟩
  · rfl
  · rfl
  · exact absurd (by simpa using congrArg List.length hm) h2
  · exact absurd (by simpa using congrArg List.length hm) h3
  · rfl

/-- Claim C2: the batch-level `success` flag of a `200` response is true
iff at least one cut produced a success outcome, however many failed. -/
theorem batch_success_iff_any_success (eng : Engine) (uuid : Uuid) (u : String → Bool)
    (req : Req) (flag : Bool) (cl : List String) (er : Option (List ErrEntry))
    (h : (cutVideoHandler eng uuid u req).body = .ok200 flag cl er) :
    (flag = true ↔ ∃ p, Outcome.success p ∈ (cutVideoHandler eng uuid u req).outcomes) := by
  cases hf : req.file with
  | none => rw [cutVideoHandler_noFile hf] at h; cases h
  | some f =>
    cases hc : req.cuts.getD (.arr []) with
    | malformed => rw [cutVideoHandler_malformed hf hc] at h; cases h
    | nonArray => rw [cutVideoHandler_nonArray hf hc] at h; cases h
    | arr cuts =>
      by_cases hlen : cuts.length = 0
      · have hnil : cuts = [] := List.length_eq_zero.mp hlen
        rw [cutVideoHandler_emptyArr hf (hnil ▸ hc)] at h
        cases h
      · rw [cutVideoHandler_run hf hc hlen] at h ⊢
        cases hrun : runCuts eng uuid f.path cuts with
        | mk st e? =>
          cases e? with
          | some e => rw [hrun] at h; dsimp only at h; cases h
          | none =>
            rw [hrun] at h
            dsimp only at h
            injection h with h1 h2 h3
            subst h1
            obtain ⟨d, dc, ho, hl, hr, he, hcc, _, _, _⟩ :=
              runCutsAux_spec eng uuid f.path cuts 0 initialBatchState st hrun
            have hres : st.results = d.filterMap outSuccess := by
              simpa [initialBatchState] using hr
            have hout : st.outcomes = d := by simpa [initialBatchState] using ho
            dsimp only
            rw [hres, hout]
            simp only [decide_eq_true_eq]
            exact filterMap_outSuccess_pos_iff d

theorem batch_success_iff_any_success_witness :
    (true = true ↔ ∃ p, Outcome.success p ∈
      (cutVideoHandler engOk uuidSeq unlinkAlways reqSample).outcomes) :=
  batch_success_iff_any_success engOk uuidSeq unlinkAlways reqSample true
    ["cuts/clip0.mp4"]
    (some [⟨1, .invalidRange (.str "00:00:20".data) (.str "00:00:10".data)⟩])
    (by decide)

/-- Claim C6: whenever the batch runs (to completion or aborted by a thrown
error), the stored upload is unlinked exactly once, and an unlink failure
never changes the status or body of the response. -/
theorem upload_cleanup_once_suppressed (eng : Engine) (uuid : Uuid)
    (u1 u2 : String → Bool) (req : Req) (f : UploadedFile) (cuts : List Cut)
    (hf : req.file = some f) (hc : req.cuts.getD (.arr []) = .arr cuts)
    (hlen : cuts ≠ []) :
    (cutVideoHandler eng uuid u1 req).unlinks = [f.path] ∧
    (cutVideoHandler eng uuid u1 req).status = (cutVideoHandler eng uuid u2 req).status ∧
    (cutVideoHandler eng uuid u1 req).body = (cutVideoHandler eng uuid u2 req).body := by
  have hlen' : cuts.length ≠ 0 := fun hz => hlen (List.length_eq_zero.mp hz)
  rw [@cutVideoHandler_run eng uuid u1 req f cuts hf hc hlen',
    @cutVideoHandler_run eng uuid u2 req f cuts hf hc hlen']
  cases hrun : runCuts eng uuid f.path cuts with
  | mk st e? => cases e? <;> exact ⟨rfl, rfl, rfl⟩

theorem upload_cleanup_once_suppressed_witness :
    (cutVideoHandler engOk uuidSeq unlinkNever reqSample).unlinks = [fileSample.path] ∧
    (cutVideoHandler engOk uuidSeq unlinkNever reqSample).status =
      (cutVideoHandler engOk uuidSeq unlinkAlways reqSample).status ∧
    (cutVideoHandler engOk uuidSeq unlinkNever reqSample).body =
      (cutVideoHandler engOk uuidSeq unlinkAlways reqSample).body :=
  upload_cleanup_once_suppressed engOk uuidSeq unlinkNever unlinkAlways reqSample
    fileSample cutsSample (by decide) (by decide) (by decide)

/-- Claim C7: a missing upload, or a `cuts` field that is unparsable JSON,
not an array, or the empty array, is answered `400` with no engine work. -/
theorem invalid_request_400_no_engine (eng : Engine) (uuid : Uuid) (u : String → Bool)
    (req : Req)
    (h : req.file = none ∨ req.cuts = some .malformed ∨ req.cuts = some .nonArray ∨
      req.cuts.getD (.arr []) = .arr []) :
    (cutVideoHandler eng uuid u req).status = 400 ∧
    (cutVideoHandler eng uuid u req).engCalls = [] := by
  rcases h with h | h | h | h
  · rw [cutVideoHandler_noFile h]; exact ⟨rfl, rfl⟩
  · cases hf : req.file with
    | none => rw [cutVideoHandler_noFile hf]; exact ⟨rfl, rfl⟩
    | some f =>
      rw [cutVideoHandler_malformed hf (by rw [h]; rfl)]; exact ⟨rfl, rfl⟩
  · cases hf : req.file with
    | none => rw [cutVideoHandler_noFile hf]; exact ⟨rfl, rfl⟩
    | some f =>
      rw [cutVideoHandler_nonArray hf (by rw [h]; rfl)]; exact ⟨rfl, rfl⟩
  · cases hf : req.file with
    | none => rw [cutVideoHandler_noFile hf]; exact ⟨rfl, rfl⟩
    | some f =>
      rw [cutVideoHandler_emptyArr hf h]; exact ⟨rfl, rfl⟩

theorem invalid_request_400_no_engine_witness :
    ((cutVideoHandler engOk uuidSeq unlinkAlways reqNoFile).status = 400 ∧
      (cutVideoHandler engOk uuidSeq unlinkAlways reqNoFile).engCalls = []) ∧
    ((cutVideoHandler engOk uuidSeq unlinkAlways reqBadJson).status = 400 ∧
      (cutVideoHandler engOk uuidSeq unlinkAlways reqBadJson).engCalls = []) ∧
    ((cutVideoHandler engOk uuidSeq unlinkAlways reqEmptyCuts).status = 400 ∧
      (cutVideoHandler engOk uuidSeq unlinkAlways reqEmptyCuts).engCalls = []) :=
  ⟨invalid_request_400_no_engine engOk uuidSeq unlinkAlways reqNoFile (Or.inl (by decide)),
   invalid_request_400_no_engine engOk uuidSeq unlinkAlways reqBadJson
     (Or.inr (Or.inl (by decide))),
   invalid_request_400_no_engine engOk uuidSeq unlinkAlways reqEmptyCuts
     (Or.inr (Or.inr (Or.inr (by decide))))⟩

/-- Claim C9: a cut whose start or end is neither a number nor a string
makes timestamp conversion throw; the request is answered `500` with
`success: false`, already-completed outcomes are absent from the response,
and the upload is still unlinked. -/
theorem untyped_timestamp_500 (eng : Engine) (uuid : Uuid) (u : String → Bool)
    (req : Req) (f : UploadedFile) (cuts : List Cut)
    (hf : req.file = some f) (hc : req.cuts.getD (.arr []) = .arr cuts)
    (hlen : cuts.length ≠ 0)
    (hbad : ∃ c ∈ cuts, c.start = .other ∨ c.end_ = .other) :
    (cutVideoHandler eng uuid u req).status = 500 ∧
    (cutVideoHandler eng uuid u req).body = .serverError .typeError ∧
    bodySuccess (cutVideoHandler eng uuid u req).body = false ∧
    bodyCuts (cutVideoHandler eng uuid u req).body = none ∧
    (cutVideoHandler eng uuid u req).unlinks = [f.path] := by
  rw [cutVideoHandler_run hf hc hlen]
  have hthrow : (runCuts eng uuid f.path cuts).2 = some .typeError :=
    runCutsAux_throws eng uuid f.path cuts 0 initialBatchState hbad
  cases hrun : runCuts eng uuid f.path cuts with
  | mk st e? =>
    rw [hrun] at hthrow
    have he2 : e? = some ErrMsg.typeError := by simpa using hthrow
    subst he2
    exact ⟨rfl, rfl, rfl, rfl, rfl⟩

theorem untyped_timestamp_500_witness :
    (cutVideoHandler engOk uuidSeq unlinkAlways reqUntyped).status = 500 ∧
    (cutVideoHandler engOk uuidSeq unlinkAlways reqUntyped).body =
      .serverError .typeError ∧
    bodySuccess (cutVideoHandler engOk uuidSeq unlinkAlways reqUntyped).body = false ∧
    bodyCuts (cutVideoHandler engOk uuidSeq unlinkAlways reqUntyped).body = none ∧
    (cutVideoHandler engOk uuidSeq unlinkAlways reqUntyped).unlinks = [fileSample.path] :=
  untyped_timestamp_500 engOk uuidSeq unlinkAlways reqUntyped fileSample [cutUntyped]
    (by decide) (by decide) (by decide) ⟨cutUntyped, by decide, Or.inr rfl⟩

/-- Claim C10: when a video file was stored but the `cuts` field is
unparsable, not an array, or empty, the `400` rejection path never unlinks
the stored upload. -/
theorem rejected_request_keeps_upload (eng : Engine) (uuid : Uuid) (u : String → Bool)
    (req : Req) (f : UploadedFile)
    (hf : req.file = some f)
    (h : req.cuts = some .malformed ∨ req.cuts = some .nonArray ∨
      req.cuts.getD (.arr []) = .arr []) :
    (cutVideoHandler eng uuid u req).status = 400 ∧
    (cutVideoHandler eng uuid u req).unlinks = [] := by
  rcases h with h | h | h
  · rw [cutVideoHandler_malformed hf (by rw [h]; rfl)]; exact ⟨rfl, rfl⟩
  · rw [cutVideoHandler_nonArray hf (by rw [h]; rfl)]; exact ⟨rfl, rfl⟩
  · rw [cutVideoHandler_emptyArr hf h]; exact ⟨rfl, rfl⟩

theorem rejected_request_keeps_upload_witness :
    (cutVideoHandler engOk uuidSeq unlinkAlways reqBadJson).status = 400 ∧
    (cutVideoHandler engOk uuidSeq unlinkAlways reqBadJson).unlinks = [] :=
  rejected_request_keeps_upload engOk uuidSeq unlinkAlways reqBadJson fileSample
    (by decide) (Or.inl (by decide))

/-- Claim C4 counterexample: `"12abc"` is not a well-formed numeric string
(`Number` yields NaN) and not a colon form (it has a single colon part),
yet `timestampToSeconds` returns 12, not 0, because `parseFloat` takes the
longest numeric prefix. -/
theorem malformed_timestamp_counterexample :
    (splitOnColon "12abc".data).length = 1 ∧
    jsNumber "12abc".data = none ∧
    timestampToSeconds (.str "12abc".data) = .ok (some 12) ∧
    (12 : Dec) ≠ 0 := by decide

/-- Claim C4 (amended): malformed timestamps raise no error — a string not
splitting into two or three colon parts degrades to `parseFloat`'s longest
numeric prefix, and to 0 exactly when no prefix parses — and a cut whose
normalized end is numerically at most its normalized start is rejected by
the downstream range check with no engine call. -/
theorem malformed_timestamp_degrades :
    (∀ t : List Char, (splitOnColon t).length ≠ 2 → (splitOnColon t).length ≠ 3 →
      timestampToSeconds (.str t) = .ok (jsOr (jsParseFloat t) 0)) ∧
    (∀ t : List Char, (splitOnColon t).length ≠ 2 → (splitOnColon t).length ≠ 3 →
      jsParseFloat t = none → timestampToSeconds (.str t) = .ok (some 0)) ∧
    (∀ (eng : Engine) (uuid : Uuid) (ip : String) (i : ℕ) (c : Cut) (st : BatchState),
      rangeRejected c →
      stepCut eng uuid ip i c st = .ok { st with
        errors := st.errors ++ [⟨i, .invalidRange c.start c.end_⟩],
        outcomes := st.outcomes ++ [.failure ⟨i, .invalidRange c.start c.end_⟩] }) := by
  refine ⟨tts_fallback, ?_, fun eng uuid ip i c st hr => stepCut_rejected hr⟩
  intro t h2 h3 hnf
  rw [tts_fallback t h2 h3, hnf]
  rfl

theorem malformed_timestamp_degrades_witness :
    timestampToSeconds (.str "12abc".data) = .ok (jsOr (jsParseFloat "12abc".data) 0) ∧
    timestampToSeconds (.str "abc".data) = .ok (some 0) ∧
    stepCut engOk uuidSeq "in.mp4" 0 ⟨.num (some 9), .num (some 4)⟩ initialBatchState =
      .ok { initialBatchState with
        errors := [⟨0, .invalidRange (.num (some 9)) (.num (some 4))⟩],
        outcomes := [.failure ⟨0, .invalidRange (.num (some 9)) (.num (some 4))⟩] } :=
  ⟨malformed_timestamp_degrades.1 "12abc".data (by decide) (by decide),
   malformed_timestamp_degrades.2.1 "abc".data (by decide) (by decide) (by decide),
   malformed_timestamp_degrades.2.2 engOk uuidSeq "in.mp4" 0 ⟨.num (some 9), .num (some 4)⟩
     initialBatchState ⟨some 9, some 4, rfl, rfl, by decide⟩⟩

/-- Claim C8 counterexample: the health body has no field named
`ffmpegPath`; the transcoder path is under the key `ffmpeg`. -/
theorem health_no_ffmpegPath_field :
    (healthBody "bin-path").lookup "ffmpegPath" = none ∧
    (healthBody "bin-path").lookup "ffmpeg" = some "bin-path" := by decide

/-- Claim C8 (amended): `GET /health` answers `200` with
`status: "ok"` and the located transcoder binary path under the key
`ffmpeg` (not `ffmpegPath`). -/
theorem health_response_fields (p : String) :
    (healthHandler p).1 = 200 ∧
    (healthHandler p).2.lookup "status" = some "ok" ∧
    (healthHandler p).2.lookup "ffmpeg" = some p := ⟨rfl, rfl, rfl⟩

theorem health_response_fields_witness :
    (healthHandler "bin-path").1 = 200 ∧
    (healthHandler "bin-path").2.lookup "status" = some "ok" ∧
    (healthHandler "bin-path").2.lookup "ffmpeg" = some "bin-path" :=
  health_response_fields "bin-path"

/-- Sanity scenario from the spec: the sample batch yields one success and
one indexed range failure, with overall success true. -/
theorem scenario_partial_batch :
    (cutVideoHandler engOk uuidSeq unlinkAlways reqSample).status = 200 ∧
    (cutVideoHandler engOk uuidSeq unlinkAlways reqSample).body =
      .ok200 true ["cuts/clip0.mp4"]
        (some [⟨1, .invalidRange (.str "00:00:20".data) (.str "00:00:10".data)⟩]) := by decide

/-- Sanity scenario: when every engine invocation fails, the batch answers
`200` with `success: false` and both failures recorded. -/
theorem scenario_allfail_batch :
    (cutVideoHandler engFail uuidSeq unlinkAlways reqSample).body =
      .ok200 false []
        (some [⟨0, .engine "boom"⟩,
          ⟨1, .invalidRange (.str "00:00:20".data) (.str "00:00:10".data)⟩]) := by decide

/-- Observed leniency: a colon pair with non-numeric components normalizes
to NaN, the NaN comparison makes the range check pass, and the engine is
invoked for such a cut. -/
theorem nan_cut_reaches_engine :
    timestampToSeconds (.str "a:b".data) = .ok none ∧
    jle none none = false ∧
    (runCuts engOk uuidSeq "in.mp4"
      [⟨.str "a:b".data, .str "c:d".data⟩]).1.engCalls.length = 1 := by decide

end VideoServer
